import Mathlib

/-!
Verification of the HyperServe differential conformance harness
(`spec/conformance/conformance_test.py`) against its natural-language
specification.

The harness is a single Python module.  We shallowly embed the
JSON-like Python values it manipulates, the response normalizer
(`ConformanceTest.normalize_json`), the comparator
(`ConformanceTest.compare_responses`), the suite
(`ConformanceTest.test_basic_http`, `test_mcp_protocol`,
`test_middleware`, `run_all_tests`), the supervisor teardown
(`ServerManager.stop`) and the orchestrator (`main`).  Network I/O is
modelled by an environment recording, for each request the suite
issues, either the parsed response or the Python exception the
request raised; every fallible Python operation is embedded in
`Except PyErr`.
-/

/-- A Python exception, at the granularity the harness distinguishes.
`net` stands for any `requests` failure (connection error, timeout,
or a JSON-decode error while parsing the body): all of them propagate
identically through the harness, which has no handler that inspects
the exception type (its handlers are bare `except:`). -/
inductive PyErr where
  | net
  | typeError
  | keyError
  | attributeError
  | timeoutExpired
  deriving DecidableEq, Repr

/-- A Python dictionary key as used by the harness.  Parsed JSON only
produces string keys, but `normalize_json` is claimed total for
arbitrary mappings, so integer keys are represented as well; Python
raises `TypeError` when `sorted` compares an `int` key with a `str`
key. -/
inductive PyKey where
  | str (s : String)
  | int (n : Int)
  deriving DecidableEq, Repr

/-- A Python value of the JSON-like shape the harness manipulates:
scalars, lists, and dictionaries (association lists in insertion
order; Python dictionaries preserve insertion order and have
pairwise-distinct keys). -/
inductive PyVal where
  | str (s : String)
  | int (n : Int)
  | bool (b : Bool)
  | null
  | list (xs : List PyVal)
  | dict (kvs : List (PyKey × PyVal))
  deriving Repr

/-- Python `<` on the keys of a mapping, as a total Boolean order used
by the embedded sort.  Within one type it is the natural order
(`str < str` lexicographic, `int < int` numeric).  Python raises
`TypeError` on a cross-type comparison; the embedding separately
guards every sort by `keysUniform`, so the cross-type branches below
(`int` before `str`, arbitrarily) are never observable through
`normalize_jsonE`. -/
def keyLeB : PyKey → PyKey → Bool
  | PyKey.str a, PyKey.str b => a ≤ b
  | PyKey.int a, PyKey.int b => a ≤ b
  | PyKey.int _, PyKey.str _ => true
  | PyKey.str _, PyKey.int _ => false

/-- Whether two keys are of the same Python type (so that `<` between
them does not raise `TypeError`). -/
def sameKind : PyKey → PyKey → Bool
  | PyKey.str _, PyKey.str _ => true
  | PyKey.int _, PyKey.int _ => true
  | _, _ => false

/-- Whether every key of a mapping is of one Python type, so that
`sorted(data.items())` performs no cross-type comparison and hence
does not raise. -/
def keysUniform : List PyKey → Bool
  | [] => true
  | k :: ks => ks.all (sameKind k)

/-- The relation `sorted(data.items())` sorts by: Python compares the
`(key, value)` tuples, and, keys of one dictionary being pairwise
distinct, the comparison is decided by the keys alone (the tuple
comparison reaches the values only on equal keys). -/
def pairLe (p q : PyKey × PyVal) : Prop := keyLeB p.1 q.1 = true

instance : DecidableRel pairLe := fun p q => by
  unfold pairLe; infer_instance

instance : IsTotal (PyKey × PyVal) pairLe := by
  constructor
  intro p q
  unfold pairLe keyLeB
  rcases p with ⟨pk, pv⟩ <;> rcases q with ⟨qk, qv⟩ <;>
    cases pk <;> cases qk <;> simp <;> exact le_total ..

instance : IsTrans (PyKey × PyVal) pairLe := by
  constructor
  intro p q u
  unfold pairLe keyLeB
  rcases p with ⟨pk, _⟩ <;> rcases q with ⟨qk, _⟩ <;> rcases u with ⟨uk, _⟩ <;>
    cases pk <;> cases qk <;> cases uk <;> simp <;> exact le_trans

/-- `sorted(data.items())`: a stable sort of the key/value pairs of a
mapping by key (Python Timsort is stable; the embedding uses insertion
sort, which is also stable and agrees with every stable sort once the
key order is total on the keys present). -/
def sortKVs (kvs : List (PyKey × PyVal)) : List (PyKey × PyVal) :=
  List.insertionSort pairLe kvs

theorem sortKVs_perm (kvs : List (PyKey × PyVal)) :
    List.Perm (sortKVs kvs) kvs :=
  List.perm_insertionSort pairLe kvs

theorem sortKVs_sizeOf (kvs : List (PyKey × PyVal)) :
    sizeOf (sortKVs kvs) = sizeOf kvs :=
  (sortKVs_perm kvs).sizeOf_eq_sizeOf

mutual

/-- `ConformanceTest.normalize_json`, value part: mappings have their
pairs sorted by key and their values recursively normalized; list
elements are recursively normalized in place; scalars pass through.
This is the pure result; the `TypeError` that Python's `sorted` raises
on mixed-type keys is captured by `normalize_jsonE` below. -/
def normalize_json : PyVal → PyVal
  | PyVal.str s => PyVal.str s
  | PyVal.int n => PyVal.int n
  | PyVal.bool b => PyVal.bool b
  | PyVal.null => PyVal.null
  | PyVal.list xs => PyVal.list (normList xs)
  | PyVal.dict kvs => PyVal.dict (normPairs (sortKVs kvs))
termination_by v => sizeOf v
decreasing_by
  all_goals simp_wf
  all_goals first
    | (rw [sortKVs_sizeOf]; omega)
    | omega

/-- Recursive normalization of the elements of a Python list. -/
def normList : List PyVal → List PyVal
  | [] => []
  | x :: xs => normalize_json x :: normList xs
termination_by xs => sizeOf xs
decreasing_by
  all_goals simp_wf
  all_goals omega

/-- Recursive normalization of the values of a (sorted) pair list. -/
def normPairs : List (PyKey × PyVal) → List (PyKey × PyVal)
  | [] => []
  | (k, v) :: r => (k, normalize_json v) :: normPairs r
termination_by l => sizeOf l
decreasing_by
  all_goals simp_wf
  all_goals omega

end

mutual

/-- `ConformanceTest.normalize_json` with Python's raising behavior:
identical to `normalize_json` except that a mapping whose keys mix
Python types makes `sorted(data.items())` raise `TypeError`, which
propagates. -/
def normalize_jsonE : PyVal → Except PyErr PyVal
  | PyVal.str s => Except.ok (PyVal.str s)
  | PyVal.int n => Except.ok (PyVal.int n)
  | PyVal.bool b => Except.ok (PyVal.bool b)
  | PyVal.null => Except.ok PyVal.null
  | PyVal.list xs =>
      match normListE xs with
      | Except.ok ys => Except.ok (PyVal.list ys)
      | Except.error e => Except.error e
  | PyVal.dict kvs =>
      if keysUniform (kvs.map Prod.fst) then
        match normPairsE (sortKVs kvs) with
        | Except.ok ps => Except.ok (PyVal.dict ps)
        | Except.error e => Except.error e
      else Except.error PyErr.typeError
termination_by v => sizeOf v
decreasing_by
  all_goals simp_wf
  all_goals first
    | (rw [sortKVs_sizeOf]; omega)
    | omega

/-- Raising normalization of list elements, left to right. -/
def normListE : List PyVal → Except PyErr (List PyVal)
  | [] => Except.ok []
  | x :: xs =>
      match normalize_jsonE x with
      | Except.ok y =>
          match normListE xs with
          | Except.ok ys => Except.ok (y :: ys)
          | Except.error e => Except.error e
      | Except.error e => Except.error e
termination_by xs => sizeOf xs
decreasing_by
  all_goals simp_wf
  all_goals omega

/-- Raising normalization of the values of a pair list, left to
right. -/
def normPairsE : List (PyKey × PyVal) → Except PyErr (List (PyKey × PyVal))
  | [] => Except.ok []
  | (k, v) :: r =>
      match normalize_jsonE v with
      | Except.ok w =>
          match normPairsE r with
          | Except.ok ws => Except.ok ((k, w) :: ws)
          | Except.error e => Except.error e
      | Except.error e => Except.error e
termination_by l => sizeOf l
decreasing_by
  all_goals simp_wf
  all_goals omega

end

/-- Structural induction principle for the nested `PyVal` type, with
hypotheses for elements of lists and values of mappings. -/
theorem PyVal.inductionOn {motive : PyVal → Prop}
    (hstr : ∀ s, motive (PyVal.str s))
    (hint : ∀ n, motive (PyVal.int n))
    (hbool : ∀ b, motive (PyVal.bool b))
    (hnull : motive PyVal.null)
    (hlist : ∀ xs, (∀ x, x ∈ xs → motive x) → motive (PyVal.list xs))
    (hdict : ∀ kvs, (∀ p, p ∈ kvs → motive p.2) → motive (PyVal.dict kvs))
    (v : PyVal) : motive v := by
  match v with
  | PyVal.str s => exact hstr s
  | PyVal.int n => exact hint n
  | PyVal.bool b => exact hbool b
  | PyVal.null => exact hnull
  | PyVal.list xs =>
      exact hlist xs fun x hx =>
        PyVal.inductionOn hstr hint hbool hnull hlist hdict x
  | PyVal.dict kvs =>
      exact hdict kvs fun p hp =>
        PyVal.inductionOn hstr hint hbool hnull hlist hdict p.2
termination_by sizeOf v
decreasing_by
  · have := List.sizeOf_lt_of_mem hx
    simp only [PyVal.list.sizeOf_spec]
    omega
  · have h1 := List.sizeOf_lt_of_mem hp
    have h2 : sizeOf p.2 < sizeOf p := by
      rcases p with ⟨a, b⟩
      simp
    simp only [PyVal.dict.sizeOf_spec]
    omega

theorem normList_eq_map (xs : List PyVal) :
    normList xs = xs.map normalize_json := by
  induction xs with
  | nil => simp [normList]
  | cons x xs ih => simp [normList, ih]

theorem normPairs_eq_map (l : List (PyKey × PyVal)) :
    normPairs l = l.map fun p => (p.1, normalize_json p.2) := by
  induction l with
  | nil => simp [normPairs]
  | cons p r ih =>
      rcases p with ⟨k, v⟩
      simp [normPairs, ih]

theorem normPairs_keys (l : List (PyKey × PyVal)) :
    (normPairs l).map Prod.fst = l.map Prod.fst := by
  rw [normPairs_eq_map, List.map_map]
  exact List.map_congr_left fun p _ => rfl

theorem sortKVs_sorted (l : List (PyKey × PyVal)) :
    List.Sorted pairLe (sortKVs l) :=
  List.sorted_insertionSort pairLe l

/-- Sortedness only looks at the keys, so normalizing the values of a
sorted pair list keeps it sorted. -/
theorem sorted_normPairs {l : List (PyKey × PyVal)}
    (h : List.Sorted pairLe l) : List.Sorted pairLe (normPairs l) := by
  rw [normPairs_eq_map]
  unfold List.Sorted at h ⊢
  rw [List.pairwise_map]
  exact h.imp fun {a b} hab => hab

/-- A pair list sorted by key is unchanged by `sortKVs`. -/
theorem sortKVs_of_sorted {l : List (PyKey × PyVal)}
    (h : List.Sorted pairLe l) : sortKVs l = l :=
  List.Sorted.insertionSort_eq h

mutual

/-- Whether `normalize_json` runs without raising on a value: every
mapping reachable from it (visiting sorted pairs exactly as
`normalize_jsonE` does) has keys of one Python type. -/
def pyOrderable : PyVal → Bool
  | PyVal.str _ => true
  | PyVal.int _ => true
  | PyVal.bool _ => true
  | PyVal.null => true
  | PyVal.list xs => pyOrderableList xs
  | PyVal.dict kvs =>
      keysUniform (kvs.map Prod.fst) && pyOrderablePairs (sortKVs kvs)
termination_by v => sizeOf v
decreasing_by
  all_goals simp_wf
  all_goals first
    | (rw [sortKVs_sizeOf]; omega)
    | omega

/-- Orderability of every element of a list. -/
def pyOrderableList : List PyVal → Bool
  | [] => true
  | x :: xs => pyOrderable x && pyOrderableList xs
termination_by xs => sizeOf xs
decreasing_by
  all_goals simp_wf
  all_goals omega

/-- Orderability of every value of a pair list. -/
def pyOrderablePairs : List (PyKey × PyVal) → Bool
  | [] => true
  | (_, v) :: r => pyOrderable v && pyOrderablePairs r
termination_by l => sizeOf l
decreasing_by
  all_goals simp_wf
  all_goals omega

end

theorem pyOrderableList_eq_all (xs : List PyVal) :
    pyOrderableList xs = xs.all pyOrderable := by
  induction xs with
  | nil => simp [pyOrderableList]
  | cons x xs ih => simp [pyOrderableList, ih]

theorem pyOrderablePairs_eq_all (l : List (PyKey × PyVal)) :
    pyOrderablePairs l = l.all fun p => pyOrderable p.2 := by
  induction l with
  | nil => simp [pyOrderablePairs]
  | cons p r ih =>
      rcases p with ⟨k, v⟩
      simp [pyOrderablePairs, ih]

/-- `List.all` is invariant under permutation. -/
theorem all_perm {α : Type} {p : α → Bool} {l1 l2 : List α}
    (h : List.Perm l1 l2) : l1.all p = l2.all p := by
  by_cases h1 : l1.all p = true
  · rw [h1]
    symm
    rw [List.all_eq_true] at h1 ⊢
    exact fun a ha => h1 a (h.mem_iff.mpr ha)
  · rw [Bool.not_eq_true] at h1
    rw [h1]
    symm
    rw [Bool.eq_false_iff]
    intro h2
    rw [List.all_eq_true] at h2
    have : l1.all p = true := by
      rw [List.all_eq_true]
      exact fun a ha => h2 a (h.mem_iff.mp ha)
    rw [h1] at this
    cases this

theorem sameKind_symm (a b : PyKey) : sameKind a b = sameKind b a := by
  cases a <;> cases b <;> rfl

theorem sameKind_trans {a b c : PyKey} (h1 : sameKind a b = true)
    (h2 : sameKind b c = true) : sameKind a c = true := by
  cases a <;> cases b <;> cases c <;> simp_all [sameKind]

theorem keysUniform_iff_forall (l : List PyKey) :
    keysUniform l = true ↔ ∀ a ∈ l, ∀ b ∈ l, sameKind a b = true := by
  cases l with
  | nil => simp [keysUniform]
  | cons k ks =>
      simp only [keysUniform, List.all_eq_true]
      constructor
      · intro h a ha b hb
        have hka : sameKind k a = true := by
          rcases List.mem_cons.mp ha with rfl | ha
          · cases a <;> rfl
          · exact h a ha
        have hkb : sameKind k b = true := by
          rcases List.mem_cons.mp hb with rfl | hb
          · cases b <;> rfl
          · exact h b hb
        exact sameKind_trans (by rw [sameKind_symm]; exact hka) hkb
      · intro h a ha
        exact h k (List.mem_cons_self k ks) a (List.mem_cons_of_mem k ha)

theorem keysUniform_perm {l1 l2 : List PyKey} (h : List.Perm l1 l2) :
    keysUniform l1 = keysUniform l2 := by
  by_cases h1 : keysUniform l1 = true
  · rw [h1]
    symm
    rw [keysUniform_iff_forall] at h1 ⊢
    exact fun a ha b hb =>
      h1 a (h.mem_iff.mpr ha) b (h.mem_iff.mpr hb)
  · rw [Bool.not_eq_true] at h1
    rw [h1]
    symm
    rw [Bool.eq_false_iff]
    intro h2
    rw [keysUniform_iff_forall] at h2
    have : keysUniform l1 = true := by
      rw [keysUniform_iff_forall]
      exact fun a ha b hb => h2 a (h.mem_iff.mp ha) b (h.mem_iff.mp hb)
    rw [h1] at this
    cases this

theorem normListE_bridge (xs : List PyVal)
    (ih : ∀ x ∈ xs, normalize_jsonE x =
      if pyOrderable x then Except.ok (normalize_json x)
      else Except.error PyErr.typeError) :
    normListE xs =
      if pyOrderableList xs then Except.ok (normList xs)
      else Except.error PyErr.typeError := by
  induction xs with
  | nil => simp [normListE, pyOrderableList, normList]
  | cons x xs ihl =>
      rw [normListE, ih x (List.mem_cons_self x xs),
        ihl fun a ha => ih a (List.mem_cons_of_mem x ha)]
      by_cases hx : pyOrderable x = true
      · by_cases ht : pyOrderableList xs = true
        · simp [hx, ht, pyOrderableList, normList]
        · rw [Bool.not_eq_true] at ht
          simp [hx, ht, pyOrderableList]
      · rw [Bool.not_eq_true] at hx
        simp [hx, pyOrderableList]

theorem normPairsE_bridge (l : List (PyKey × PyVal))
    (ih : ∀ p ∈ l, normalize_jsonE p.2 =
      if pyOrderable p.2 then Except.ok (normalize_json p.2)
      else Except.error PyErr.typeError) :
    normPairsE l =
      if pyOrderablePairs l then Except.ok (normPairs l)
      else Except.error PyErr.typeError := by
  induction l with
  | nil => simp [normPairsE, pyOrderablePairs, normPairs]
  | cons p r ihl =>
      rcases p with ⟨k, v⟩
      rw [normPairsE, ih (k, v) (List.mem_cons_self (k, v) r),
        ihl fun a ha => ih a (List.mem_cons_of_mem (k, v) ha)]
      by_cases hx : pyOrderable v = true
      · by_cases ht : pyOrderablePairs r = true
        · simp [hx, ht, pyOrderablePairs, normPairs]
        · rw [Bool.not_eq_true] at ht
          simp [hx, ht, pyOrderablePairs]
      · rw [Bool.not_eq_true] at hx
        simp [hx, pyOrderablePairs]

/-- `normalize_json` in Python returns the pure canonical value when
no mapping in the input mixes key types, and raises `TypeError`
otherwise. -/
theorem normalize_jsonE_bridge (v : PyVal) :
    normalize_jsonE v =
      if pyOrderable v then Except.ok (normalize_json v)
      else Except.error PyErr.typeError := by
  induction v using PyVal.inductionOn with
  | hstr s => simp [normalize_jsonE, pyOrderable, normalize_json]
  | hint n => simp [normalize_jsonE, pyOrderable, normalize_json]
  | hbool b => simp [normalize_jsonE, pyOrderable, normalize_json]
  | hnull => simp [normalize_jsonE, pyOrderable, normalize_json]
  | hlist xs ih =>
      rw [normalize_jsonE, normListE_bridge xs ih]
      by_cases h : pyOrderableList xs = true
      · simp [h, pyOrderable, normalize_json]
      · rw [Bool.not_eq_true] at h
        simp [h, pyOrderable]
  | hdict kvs ih =>
      have ihs : ∀ p ∈ sortKVs kvs, normalize_jsonE p.2 =
          if pyOrderable p.2 then Except.ok (normalize_json p.2)
          else Except.error PyErr.typeError :=
        fun p hp => ih p ((sortKVs_perm kvs).mem_iff.mp hp)
      rw [normalize_jsonE]
      by_cases hu : keysUniform (kvs.map Prod.fst) = true
      · rw [if_pos hu, normPairsE_bridge (sortKVs kvs) ihs]
        by_cases hs : pyOrderablePairs (sortKVs kvs) = true
        · simp [hu, hs, pyOrderable, normalize_json]
        · rw [Bool.not_eq_true] at hs
          simp [hu, hs, pyOrderable]
      · rw [Bool.not_eq_true] at hu
        simp [hu, pyOrderable]

/-- Normalization is idempotent as a pure transformation. -/
theorem normalize_json_idem (v : PyVal) :
    normalize_json (normalize_json v) = normalize_json v := by
  induction v using PyVal.inductionOn with
  | hstr s => simp [normalize_json]
  | hint n => simp [normalize_json]
  | hbool b => simp [normalize_json]
  | hnull => simp [normalize_json]
  | hlist xs ih =>
      rw [normalize_json, normalize_json, normList_eq_map,
        normList_eq_map, List.map_map]
      congr 1
      exact List.map_congr_left fun x hx => ih x hx
  | hdict kvs ih =>
      rw [normalize_json, normalize_json]
      have hsorted : List.Sorted pairLe (normPairs (sortKVs kvs)) :=
        sorted_normPairs (sortKVs_sorted kvs)
      rw [sortKVs_of_sorted hsorted]
      congr 1
      rw [normPairs_eq_map, normPairs_eq_map, List.map_map]
      exact List.map_congr_left fun p hp => by
        simp only [Function.comp]
        rw [ih p ((sortKVs_perm kvs).mem_iff.mp hp)]

/-- Normalizing preserves orderability: the canonical value of a
non-raising input is itself non-raising. -/
theorem pyOrderable_normalize (v : PyVal) (h : pyOrderable v = true) :
    pyOrderable (normalize_json v) = true := by
  induction v using PyVal.inductionOn with
  | hstr s => simpa [normalize_json, pyOrderable] using h
  | hint n => simpa [normalize_json, pyOrderable] using h
  | hbool b => simpa [normalize_json, pyOrderable] using h
  | hnull => simpa [normalize_json, pyOrderable] using h
  | hlist xs ih =>
      rw [normalize_json, pyOrderable, pyOrderableList_eq_all,
        normList_eq_map, List.all_map]
      rw [pyOrderable, pyOrderableList_eq_all, List.all_eq_true] at h
      rw [List.all_eq_true]
      exact fun x hx => ih x hx (h x hx)
  | hdict kvs ih =>
      rw [pyOrderable, Bool.and_eq_true] at h
      obtain ⟨hu, hp⟩ := h
      rw [normalize_json, pyOrderable, Bool.and_eq_true]
      constructor
      · rw [normPairs_keys]
        rw [keysUniform_perm ((sortKVs_perm kvs).map Prod.fst)]
        exact hu
      · rw [pyOrderablePairs_eq_all,
          all_perm (sortKVs_perm (normPairs (sortKVs kvs))),
          normPairs_eq_map, List.all_map]
        rw [pyOrderablePairs_eq_all, List.all_eq_true] at hp
        rw [List.all_eq_true]
        intro p hmem
        have hv : pyOrderable p.2 = true := hp p hmem
        have hm : p ∈ kvs := (sortKVs_perm kvs).mem_iff.mp hmem
        exact ih p hm hv

theorem keyLeB_antisymm {a b : PyKey} (h1 : keyLeB a b = true)
    (h2 : keyLeB b a = true) : a = b := by
  cases a with
  | str s =>
      cases b with
      | str t =>
          simp only [keyLeB, decide_eq_true_eq] at h1 h2
          exact congrArg PyKey.str (le_antisymm h1 h2)
      | int n => simp [keyLeB] at h1
  | int n =>
      cases b with
      | str t => simp [keyLeB] at h2
      | int m =>
          simp only [keyLeB, decide_eq_true_eq] at h1 h2
          exact congrArg PyKey.int (le_antisymm h1 h2)

/-- Two key-sorted pair lists that are permutations of one another and
have pairwise-distinct keys are equal: the sorted order of a mapping
with distinct keys is unique. -/
theorem sorted_perm_nodup_eq :
    ∀ {l1 l2 : List (PyKey × PyVal)}, List.Perm l1 l2 →
      List.Sorted pairLe l1 → List.Sorted pairLe l2 →
      (l1.map Prod.fst).Nodup → l1 = l2 := by
  intro l1
  induction l1 with
  | nil =>
      intro l2 hp _ _ _
      exact (List.Perm.nil_eq hp).symm ▸ rfl
  | cons p t1 ih =>
      intro l2 hp h1 h2 hnd
      cases l2 with
      | nil => exact absurd hp.symm (by simp)
      | cons q t2 =>
          have hpq : p = q := by
            by_contra hne
            have hpm : p ∈ q :: t2 := hp.mem_iff.mp (List.mem_cons_self p t1)
            have hqm : q ∈ p :: t1 := hp.mem_iff.mpr (List.mem_cons_self q t2)
            have hpt2 : p ∈ t2 := by
              rcases List.mem_cons.mp hpm with h | h
              · exact absurd h hne
              · exact h
            have hqt1 : q ∈ t1 := by
              rcases List.mem_cons.mp hqm with h | h
              · exact absurd h.symm hne
              · exact h
            have hle1 : pairLe p q :=
              List.rel_of_sorted_cons h1 q hqt1
            have hle2 : pairLe q p :=
              List.rel_of_sorted_cons h2 p hpt2
            have hkeys : p.1 = q.1 := keyLeB_antisymm hle1 hle2
            have hnd1 : p.1 ∉ t1.map Prod.fst :=
              (List.nodup_cons.mp (by simpa using hnd)).1
            exact hnd1 (hkeys ▸ List.mem_map_of_mem Prod.fst hqt1)
          subst hpq
          have htail : List.Perm t1 t2 := hp.cons_inv
          have := ih htail h1.of_cons h2.of_cons
            (List.nodup_cons.mp (by simpa using hnd)).2
          rw [this]

/-- Sorting a mapping with pairwise-distinct keys depends only on
which pairs it contains, not on their insertion order. -/
theorem sortKVs_perm_congr {kvs1 kvs2 : List (PyKey × PyVal)}
    (h : List.Perm kvs1 kvs2)
    (hnd : (kvs1.map Prod.fst).Nodup) :
    sortKVs kvs1 = sortKVs kvs2 := by
  apply sorted_perm_nodup_eq
  · exact (sortKVs_perm kvs1).trans (h.trans (sortKVs_perm kvs2).symm)
  · exact sortKVs_sorted kvs1
  · exact sortKVs_sorted kvs2
  · exact ((sortKVs_perm kvs1).map Prod.fst).nodup_iff.mpr hnd

/-- C1.  Normalization is idempotent: renormalizing the result of
`normalize_json` is a no-op.  Stated monadically so that it also
covers inputs on which `normalize_json` raises (there both sides are
the same raised `TypeError`); on every value on which `normalize_json`
returns — in particular on every structured JSON-like value, whose
mapping keys are all strings — the composition of two normalizations
equals one. -/
theorem C1_normalize_idempotent (x : PyVal) :
    (normalize_jsonE x).bind normalize_jsonE = normalize_jsonE x := by
  rw [normalize_jsonE_bridge x]
  by_cases h : pyOrderable x = true
  · rw [if_pos h]
    show normalize_jsonE (normalize_json x) = _
    rw [normalize_jsonE_bridge, if_pos (pyOrderable_normalize x h),
      normalize_json_idem]
  · rw [Bool.not_eq_true] at h
    rw [if_neg (by simp [h])]
    rfl

/-- C7, counterexample.  `normalize_json` is not total on mappings
with mixed-type keys: on `{"a": 1, 1: 2}` Python's
`sorted(data.items())` compares the `str` key with the `int` key and
raises `TypeError`. -/
theorem C7_counterexample :
    normalize_jsonE
      (PyVal.dict [(PyKey.str "a", PyVal.int 1), (PyKey.int 1, PyVal.int 2)])
      = Except.error PyErr.typeError := by
  rw [normalize_jsonE]
  simp [keysUniform, sameKind]

/-- C7, amended.  `normalize_json` is pure and deterministic, and is
total on every value in which no mapping mixes key types (in
particular on all parsed JSON, whose mapping keys are strings): there
it returns the canonical value without raising.  On a mapping with
mixed-type keys it raises `TypeError`. -/
theorem C7_normalize_total_on_uniform_keys (x : PyVal)
    (h : pyOrderable x = true) :
    normalize_jsonE x = Except.ok (normalize_json x) := by
  rw [normalize_jsonE_bridge, if_pos h]

/-- C7, witness: the amended totality theorem applied to the concrete
mapping `{"b": 1, "a": 2}`. -/
theorem C7_normalize_total_witness :
    normalize_jsonE
        (PyVal.dict [(PyKey.str "b", PyVal.int 1), (PyKey.str "a", PyVal.int 2)])
      = Except.ok
        (PyVal.dict [(PyKey.str "a", PyVal.int 2), (PyKey.str "b", PyVal.int 1)]) := by
  rw [C7_normalize_total_on_uniform_keys _ (by
    rw [pyOrderable]
    simp +decide [keysUniform, sameKind, pyOrderablePairs, pyOrderable,
      sortKVs, List.insertionSort, List.orderedInsert, pairLe, keyLeB])]
  rw [normalize_json]
  simp +decide [sortKVs, List.insertionSort, List.orderedInsert, pairLe,
    keyLeB, normPairs, normalize_json]

/-- First value bound to a key in a pair list (Python dictionary
lookup; the keys of a genuine Python dictionary are distinct, so the
first match is the only one). -/
def lookupKey (l : List (PyKey × PyVal)) (k : PyKey) : Option PyVal :=
  match l with
  | [] => none
  | (k2, v) :: r => if k2 = k then some v else lookupKey r k

mutual

/-- Python `==` on the embedded values: scalar equality with the
numeric `bool`/`int` coercion (`True == 1`, `False == 0`), pointwise
equality of lists, and order-insensitive equality of dictionaries
(same length, and every key of the left one maps to an equal value in
the right one). -/
def pyEq : PyVal → PyVal → Bool
  | PyVal.str a, y =>
      match y with
      | PyVal.str b => a == b
      | _ => false
  | PyVal.int a, y =>
      match y with
      | PyVal.int b => a == b
      | PyVal.bool b => a == (if b then (1 : Int) else 0)
      | _ => false
  | PyVal.bool a, y =>
      match y with
      | PyVal.bool b => a == b
      | PyVal.int b => (if a then (1 : Int) else 0) == b
      | _ => false
  | PyVal.null, y =>
      match y with
      | PyVal.null => true
      | _ => false
  | PyVal.list xs, y =>
      match y with
      | PyVal.list ys => pyEqList xs ys
      | _ => false
  | PyVal.dict kvs, y =>
      match y with
      | PyVal.dict kvs2 => (kvs.length == kvs2.length) && pyEqPairs kvs kvs2
      | _ => false
termination_by v _ => sizeOf v
decreasing_by
  all_goals simp_wf
  all_goals omega

/-- Python `==` on lists: equal lengths and pointwise-equal
elements. -/
def pyEqList : List PyVal → List PyVal → Bool
  | [], ys => ys.isEmpty
  | x :: xs, ys =>
      match ys with
      | y :: ys2 => pyEq x y && pyEqList xs ys2
      | [] => false
termination_by xs _ => sizeOf xs
decreasing_by
  all_goals simp_wf
  all_goals omega

/-- Dictionary inclusion test of Python `==`: every pair of the first
list is matched by the second list under key lookup. -/
def pyEqPairs : List (PyKey × PyVal) → List (PyKey × PyVal) → Bool
  | [], _ => true
  | (k, v) :: r, b =>
      (match lookupKey b k with
       | some w => pyEq v w
       | none => false) && pyEqPairs r b
termination_by l _ => sizeOf l
decreasing_by
  all_goals simp_wf
  all_goals omega

end

mutual

/-- Well-formedness of an embedded value as a real Python value: the
keys of every dictionary reachable from it are pairwise distinct
(Python dictionaries cannot hold duplicate keys). -/
def wfVal : PyVal → Bool
  | PyVal.str _ => true
  | PyVal.int _ => true
  | PyVal.bool _ => true
  | PyVal.null => true
  | PyVal.list xs => wfList xs
  | PyVal.dict kvs =>
      decide ((kvs.map Prod.fst).Nodup) && wfPairs kvs
termination_by v => sizeOf v
decreasing_by
  all_goals simp_wf
  all_goals omega

/-- Well-formedness of every element of a list. -/
def wfList : List PyVal → Bool
  | [] => true
  | x :: xs => wfVal x && wfList xs
termination_by xs => sizeOf xs
decreasing_by
  all_goals simp_wf
  all_goals omega

/-- Well-formedness of every value of a pair list. -/
def wfPairs : List (PyKey × PyVal) → Bool
  | [] => true
  | (_, v) :: r => wfVal v && wfPairs r
termination_by l => sizeOf l
decreasing_by
  all_goals simp_wf
  all_goals omega

end

theorem wfList_eq_all (xs : List PyVal) : wfList xs = xs.all wfVal := by
  induction xs with
  | nil => simp [wfList]
  | cons x xs ih => simp [wfList, ih]

theorem wfPairs_eq_all (l : List (PyKey × PyVal)) :
    wfPairs l = l.all fun p => wfVal p.2 := by
  induction l with
  | nil => simp [wfPairs]
  | cons p r ih =>
      rcases p with ⟨k, v⟩
      simp [wfPairs, ih]

theorem all_congr_mem {α : Type} {f g : α → Bool} {l : List α}
    (h : ∀ x ∈ l, f x = g x) : l.all f = l.all g := by
  induction l with
  | nil => rfl
  | cons x xs ih =>
      simp only [List.all_cons]
      rw [h x (List.mem_cons_self x xs),
        ih fun a ha => h a (List.mem_cons_of_mem x ha)]

theorem lookupKey_eq_some_of_mem :
    ∀ {l : List (PyKey × PyVal)} {k : PyKey} {v : PyVal},
      (l.map Prod.fst).Nodup → (k, v) ∈ l → lookupKey l k = some v := by
  intro l
  induction l with
  | nil => intro k v _ hm; cases hm
  | cons p r ih =>
      intro k v hnd hm
      rcases p with ⟨k2, w⟩
      rw [List.map_cons] at hnd
      have hnd1 := (List.nodup_cons.mp hnd).1
      have hnd2 := (List.nodup_cons.mp hnd).2
      rw [lookupKey]
      by_cases hk : k2 = k
      · subst hk
        rcases List.mem_cons.mp hm with h | h
        · cases h
          simp
        · exact absurd (List.mem_map_of_mem Prod.fst h) hnd1
      · rw [if_neg hk]
        rcases List.mem_cons.mp hm with h | h
        · cases h; exact absurd rfl hk
        · exact ih hnd2 h

theorem mem_of_lookupKey_eq_some :
    ∀ {l : List (PyKey × PyVal)} {k : PyKey} {v : PyVal},
      lookupKey l k = some v → (k, v) ∈ l := by
  intro l
  induction l with
  | nil => intro k v h; cases h
  | cons p r ih =>
      intro k v h
      rcases p with ⟨k2, w⟩
      rw [lookupKey] at h
      by_cases hk : k2 = k
      · subst hk
        rw [if_pos rfl] at h
        cases h
        exact List.mem_cons_self _ _
      · rw [if_neg hk] at h
        exact List.mem_cons_of_mem _ (ih h)

theorem lookupKey_eq_none_iff (l : List (PyKey × PyVal)) (k : PyKey) :
    lookupKey l k = none ↔ k ∉ l.map Prod.fst := by
  induction l with
  | nil => simp [lookupKey]
  | cons p r ih =>
      rcases p with ⟨k2, w⟩
      rw [lookupKey, List.map_cons]
      by_cases hk : k2 = k
      · subst hk
        simp
      · rw [if_neg hk, List.mem_cons, ih]
        constructor
        · intro h1 h2
          rcases h2 with h2 | h2
          · exact hk h2.symm
          · exact h1 h2
        · intro h1 hm
          exact h1 (Or.inr hm)

theorem lookupKey_perm {l l2 : List (PyKey × PyVal)}
    (h : List.Perm l l2) (hnd : (l.map Prod.fst).Nodup) (k : PyKey) :
    lookupKey l k = lookupKey l2 k := by
  have hnd2 : (l2.map Prod.fst).Nodup := (h.map Prod.fst).nodup_iff.mp hnd
  cases hl : lookupKey l k with
  | some v =>
      exact (lookupKey_eq_some_of_mem hnd2
        (h.mem_iff.mp (mem_of_lookupKey_eq_some hl))).symm
  | none =>
      symm
      rw [lookupKey_eq_none_iff] at hl ⊢
      intro hm
      exact hl ((h.map Prod.fst).mem_iff.mpr hm)

theorem lookupKey_normPairs (l : List (PyKey × PyVal)) (k : PyKey) :
    lookupKey (normPairs l) k = (lookupKey l k).map normalize_json := by
  induction l with
  | nil => simp [normPairs, lookupKey]
  | cons p r ih =>
      rcases p with ⟨k2, v⟩
      rw [normPairs, lookupKey, lookupKey]
      by_cases hk : k2 = k
      · simp [hk]
      · simp [hk, ih]

/-- The Python-equality check of one dictionary pair against a
dictionary: look its key up and compare values. -/
def pairCheck (b : List (PyKey × PyVal)) (p : PyKey × PyVal) : Bool :=
  match lookupKey b p.1 with
  | some w => pyEq p.2 w
  | none => false

theorem pyEqPairs_eq_all (l b : List (PyKey × PyVal)) :
    pyEqPairs l b = l.all (pairCheck b) := by
  induction l with
  | nil => simp [pyEqPairs]
  | cons p r ih =>
      rcases p with ⟨k, v⟩
      rw [pyEqPairs, ih]
      simp [pairCheck]

theorem pyEqList_norm (xs : List PyVal)
    (ih : ∀ x ∈ xs, ∀ y : PyVal, wfVal x = true → wfVal y = true →
      pyEq (normalize_json x) (normalize_json y) = pyEq x y) :
    ∀ ys : List PyVal, wfList xs = true → wfList ys = true →
      pyEqList (normList xs) (normList ys) = pyEqList xs ys := by
  induction xs with
  | nil =>
      intro ys _ _
      cases ys <;> simp [normList, pyEqList]
  | cons x xs ihl =>
      intro ys hx hy
      rw [wfList, Bool.and_eq_true] at hx
      cases ys with
      | nil => simp [normList, pyEqList]
      | cons y ys2 =>
          rw [wfList, Bool.and_eq_true] at hy
          rw [normList, normList, pyEqList, pyEqList,
            ih x (List.mem_cons_self x xs) y hx.1 hy.1,
            ihl (fun a ha => ih a (List.mem_cons_of_mem x ha)) ys2 hx.2 hy.2]

theorem pyEqPairs_norm (a : List (PyKey × PyVal))
    (ih : ∀ p ∈ a, ∀ w : PyVal, wfVal p.2 = true → wfVal w = true →
      pyEq (normalize_json p.2) (normalize_json w) = pyEq p.2 w)
    (b : List (PyKey × PyVal)) (ha : wfPairs a = true)
    (hb : wfPairs b = true) (hndb : (b.map Prod.fst).Nodup) :
    pyEqPairs (normPairs (sortKVs a)) (normPairs (sortKVs b)) =
      pyEqPairs a b := by
  rw [pyEqPairs_eq_all, pyEqPairs_eq_all]
  rw [normPairs_eq_map (sortKVs a), List.all_map, all_perm (sortKVs_perm a)]
  apply all_congr_mem
  intro p hp
  rcases p with ⟨k, v⟩
  simp only [Function.comp, pairCheck]
  have hlook : lookupKey (normPairs (sortKVs b)) k =
      (lookupKey b k).map normalize_json := by
    rw [lookupKey_normPairs,
      lookupKey_perm (sortKVs_perm b)
        (((sortKVs_perm b).map Prod.fst).nodup_iff.mpr hndb) k]
  rw [hlook]
  cases hkb : lookupKey b k with
  | none => rfl
  | some w =>
      simp only [Option.map_some]
      have hwv : wfVal v = true := by
        rw [wfPairs_eq_all, List.all_eq_true] at ha
        exact ha (k, v) hp
      have hww : wfVal w = true := by
        rw [wfPairs_eq_all, List.all_eq_true] at hb
        exact hb (k, w) (mem_of_lookupKey_eq_some hkb)
      exact ih (k, v) hp w hwv hww

/-- Normalization neither merges nor separates Python-equal values:
for well-formed values (pairwise-distinct dictionary keys, as Python
guarantees), the canonical forms are Python-equal exactly when the
originals are. -/
theorem pyEq_normalize (x y : PyVal) (hx : wfVal x = true)
    (hy : wfVal y = true) :
    pyEq (normalize_json x) (normalize_json y) = pyEq x y := by
  cases x with
  | str s => cases y <;> simp [normalize_json, pyEq]
  | int n => cases y <;> simp [normalize_json, pyEq]
  | bool b => cases y <;> simp [normalize_json, pyEq]
  | null => cases y <;> simp [normalize_json, pyEq]
  | list xs =>
      cases y with
      | list ys =>
          rw [wfVal] at hx
          rw [wfVal] at hy
          rw [normalize_json, normalize_json, pyEq, pyEq]
          exact pyEqList_norm xs
            (fun x hmem y hw1 hw2 => pyEq_normalize x y hw1 hw2) ys hx hy
      | str s => simp [normalize_json, pyEq]
      | int n => simp [normalize_json, pyEq]
      | bool b => simp [normalize_json, pyEq]
      | null => simp [normalize_json, pyEq]
      | dict kvs => simp [normalize_json, pyEq]
  | dict kvs =>
      cases y with
      | dict kvs2 =>
          rw [wfVal, Bool.and_eq_true, decide_eq_true_eq] at hx
          rw [wfVal, Bool.and_eq_true, decide_eq_true_eq] at hy
          rw [normalize_json, normalize_json, pyEq, pyEq]
          have hlen : (normPairs (sortKVs kvs)).length = kvs.length := by
            rw [normPairs_eq_map, List.length_map,
              (sortKVs_perm kvs).length_eq]
          have hlen2 : (normPairs (sortKVs kvs2)).length = kvs2.length := by
            rw [normPairs_eq_map, List.length_map,
              (sortKVs_perm kvs2).length_eq]
          rw [hlen, hlen2,
            pyEqPairs_norm kvs
              (fun p hmem w hw1 hw2 => pyEq_normalize p.2 w hw1 hw2)
              kvs2 hx.2 hy.2 hy.1]
      | str s => simp [normalize_json, pyEq]
      | int n => simp [normalize_json, pyEq]
      | bool b => simp [normalize_json, pyEq]
      | null => simp [normalize_json, pyEq]
      | list ys => simp [normalize_json, pyEq]
termination_by sizeOf x
decreasing_by
  all_goals simp_wf
  all_goals simp only [*, PyVal.list.sizeOf_spec, PyVal.dict.sizeOf_spec]
  · have := List.sizeOf_lt_of_mem hmem
    omega
  · have h1 := List.sizeOf_lt_of_mem hmem
    have h2 : sizeOf p.2 < sizeOf p := by
      rcases p with ⟨u, w⟩
      simp
    omega

/-- C2.  Normalization is order-insensitive for mappings and
order-preserving for sequences: two mappings holding the same
key/value pairs in different orders normalize identically (including
identical raising behavior), while two sequences that hold the same
elements in a genuinely different order (different as Python values)
still differ after normalization. -/
theorem C2_mapping_insensitive_sequence_preserving
    (kvs1 kvs2 : List (PyKey × PyVal)) (xs ys : List PyVal)
    (hperm : List.Perm kvs1 kvs2) (hnd : (kvs1.map Prod.fst).Nodup)
    (hxs : wfVal (PyVal.list xs) = true) (hys : wfVal (PyVal.list ys) = true)
    (hseq : List.Perm xs ys)
    (hne : pyEq (PyVal.list xs) (PyVal.list ys) = false) :
    normalize_jsonE (PyVal.dict kvs1) = normalize_jsonE (PyVal.dict kvs2) ∧
    pyEq (normalize_json (PyVal.list xs)) (normalize_json (PyVal.list ys))
      = false := by
  constructor
  · rw [normalize_jsonE, normalize_jsonE,
      keysUniform_perm (hperm.map Prod.fst),
      sortKVs_perm_congr hperm hnd]
  · rw [pyEq_normalize _ _ hxs hys, hne]

/-- C2, witness: the spec's own examples — the mappings
`{"b": 1, "a": 2}` and `{"a": 2, "b": 1}` normalize identically, and
the sequences `[1, 2]` and `[2, 1]` do not. -/
theorem C2_witness :
    normalize_jsonE
        (PyVal.dict [(PyKey.str "b", PyVal.int 1), (PyKey.str "a", PyVal.int 2)])
      = normalize_jsonE
        (PyVal.dict [(PyKey.str "a", PyVal.int 2), (PyKey.str "b", PyVal.int 1)]) ∧
    pyEq (normalize_json (PyVal.list [PyVal.int 1, PyVal.int 2]))
        (normalize_json (PyVal.list [PyVal.int 2, PyVal.int 1])) = false := by
  apply C2_mapping_insensitive_sequence_preserving
  · exact List.Perm.swap (PyKey.str "a", PyVal.int 2) (PyKey.str "b", PyVal.int 1) []
  · decide
  · simp [wfVal, wfList]
  · simp [wfVal, wfList]
  · exact List.Perm.swap (PyVal.int 2) (PyVal.int 1) []
  · simp +decide [pyEq, pyEqList]

/-- `ConformanceTest.__init__`: the mutable suite tally — pass, fail
and skip counters plus the ordered list of failed test names. -/
structure Results where
  passed : Nat
  failed : Nat
  skipped : Nat
  failures : List String
  deriving DecidableEq, Repr

/-- The tally at suite construction: all counters zero, no recorded
failures. -/
def initResults : Results := ⟨0, 0, 0, []⟩

/-- `ConformanceTest.compare_responses`: normalize both responses,
compare them with Python `==`, and either count a pass or count a
fail and append the test name to the failure list (the unified diff it
prints on mismatch does not change the tally).  Returns whether the
responses matched. -/
def compare_responses (test_name : String) (go_resp rust_resp : PyVal)
    (s : Results) : Bool × Results :=
  if pyEq (normalize_json go_resp) (normalize_json rust_resp) then
    (true, { s with passed := s.passed + 1 })
  else
    (false, { s with failed := s.failed + 1,
                     failures := s.failures ++ [test_name] })

/-- C10.  Every `compare_responses` call raises exactly one of the
pass/fail counters by one, never touches the skip counter, appends
the test name to the failure list exactly when the normalized
responses differ, and returns `True` exactly when they are equal. -/
theorem C10_compare_responses_invariant (test_name : String)
    (go_resp rust_resp : PyVal) (s : Results) :
    (compare_responses test_name go_resp rust_resp s).2.skipped
        = s.skipped ∧
    (compare_responses test_name go_resp rust_resp s).2.passed
        + (compare_responses test_name go_resp rust_resp s).2.failed
        = s.passed + s.failed + 1 ∧
    ((compare_responses test_name go_resp rust_resp s).1 = true ↔
      pyEq (normalize_json go_resp) (normalize_json rust_resp) = true) ∧
    ((compare_responses test_name go_resp rust_resp s).1 = true →
      (compare_responses test_name go_resp rust_resp s).2.passed
          = s.passed + 1 ∧
      (compare_responses test_name go_resp rust_resp s).2.failed
          = s.failed ∧
      (compare_responses test_name go_resp rust_resp s).2.failures
          = s.failures) ∧
    ((compare_responses test_name go_resp rust_resp s).1 = false →
      (compare_responses test_name go_resp rust_resp s).2.passed
          = s.passed ∧
      (compare_responses test_name go_resp rust_resp s).2.failed
          = s.failed + 1 ∧
      (compare_responses test_name go_resp rust_resp s).2.failures
          = s.failures ++ [test_name]) := by
  rw [compare_responses]
  by_cases h : pyEq (normalize_json go_resp) (normalize_json rust_resp) = true
  · simp [h]
    omega
  · rw [Bool.not_eq_true] at h
    simp [h]
    omega

/-- C10, witness: a concrete matching comparison from the zero tally
counts one pass, no skip, no failure entry. -/
theorem C10_witness :
    (compare_responses "Health Check" (PyVal.str "ok") (PyVal.str "ok")
        initResults).2.skipped = 0 ∧
    (compare_responses "Health Check" (PyVal.str "ok") (PyVal.str "ok")
        initResults).2.passed
      + (compare_responses "Health Check" (PyVal.str "ok") (PyVal.str "ok")
        initResults).2.failed = 1 ∧
    (compare_responses "Health Check" (PyVal.str "ok") (PyVal.str "ok")
        initResults).2.passed = 1 := by
  have h := C10_compare_responses_invariant "Health Check"
    (PyVal.str "ok") (PyVal.str "ok") initResults
  have h1 : (compare_responses "Health Check" (PyVal.str "ok")
      (PyVal.str "ok") initResults).1 = true := by
    rw [compare_responses]
    simp [normalize_json, pyEq]
  exact ⟨h.1, h.2.1, (h.2.2.2.1 h1).1⟩

/-- Python truthiness, as used by `if ... and ...` on the `tools`
field: empty string, zero, `False`, `None`, empty list and empty
dictionary are falsy, everything else truthy. -/
def pyTruthy : PyVal → Bool
  | PyVal.str s => !(s == "")
  | PyVal.int n => !(n == 0)
  | PyVal.bool b => b
  | PyVal.null => false
  | PyVal.list xs => !xs.isEmpty
  | PyVal.dict kvs => !kvs.isEmpty

/-- Python `needle in haystack` on strings: substring test. -/
def strContains (needle hay : String) : Bool :=
  !((hay.splitOn needle).length == 1)

/-- `resp.get(key, default)`: only dictionaries have `.get`, so any
other value raises `AttributeError`.  The keys the harness passes are
strings; an `int` dictionary key is simply unequal to them. -/
def dictGetE (v : PyVal) (k : String) (dflt : PyVal) : Except PyErr PyVal :=
  match v with
  | PyVal.dict kvs =>
      match lookupKey kvs (PyKey.str k) with
      | some w => Except.ok w
      | none => Except.ok dflt
  | _ => Except.error PyErr.attributeError

/-- `resp[key]` with a string key: dictionary lookup raising
`KeyError` when the key is absent; on every other value (list,
string, scalars) Python raises `TypeError` for a string index. -/
def pyIndexE (v : PyVal) (k : String) : Except PyErr PyVal :=
  match v with
  | PyVal.dict kvs =>
      match lookupKey kvs (PyKey.str k) with
      | some w => Except.ok w
      | none => Except.error PyErr.keyError
  | _ => Except.error PyErr.typeError

/-- `key in resp` for a string key: key test on a dictionary,
membership (Python `==` per element) on a list, substring test on a
string; on the remaining scalars Python raises `TypeError` (the value
is not iterable). -/
def pyInE (k : String) (v : PyVal) : Except PyErr Bool :=
  match v with
  | PyVal.dict kvs => Except.ok (kvs.any fun p => p.1 == PyKey.str k)
  | PyVal.list xs => Except.ok (xs.any fun x => pyEq (PyVal.str k) x)
  | PyVal.str s => Except.ok (strContains k s)
  | _ => Except.error PyErr.typeError

/-- In-place update of a dictionary entry: the value is replaced at
the key's existing position (Python preserves insertion order), or
the pair is appended when the key is new. -/
def setPair (kvs : List (PyKey × PyVal)) (k : String) (x : PyVal) :
    List (PyKey × PyVal) :=
  match kvs with
  | [] => [(PyKey.str k, x)]
  | (k2, w) :: r =>
      if k2 = PyKey.str k then (k2, x) :: r
      else (k2, w) :: setPair r k x

/-- `resp[key] = value` for a string key: dictionary entry update; on
a non-dictionary Python raises `TypeError`. -/
def pySetE (v : PyVal) (k : String) (x : PyVal) : Except PyErr PyVal :=
  match v with
  | PyVal.dict kvs => Except.ok (PyVal.dict (setPair kvs k x))
  | _ => Except.error PyErr.typeError

/-- One parsed response from one service, as `test_endpoint` builds
it: the HTTP status code and the parsed body (`{}` when the raw
response body is empty). -/
structure ProbeOutcome where
  status : Nat
  body : PyVal

/-- The two response headers `test_middleware` watches
(`Access-Control-Allow-Origin` and `Access-Control-Allow-Methods`),
each absent or a string. -/
structure CorsHeaders where
  allowOrigin : Option String
  allowMethods : Option String
  deriving DecidableEq, Repr

/-- One run's network behavior: for each request the suite issues
against a service, either the parsed outcome or the Python exception
the request (or the body parse) raised.  The two bare availability
probes (`requests.post` on `/mcp` with a 1-second timeout) only
matter through whether they raised, and the two `requests.options`
calls of the middleware test only through the watched headers. -/
structure Env where
  healthGo : Except PyErr ProbeOutcome
  healthRust : Except PyErr ProbeOutcome
  nfGo : Except PyErr ProbeOutcome
  nfRust : Except PyErr ProbeOutcome
  mcpAvailGo : Except PyErr Unit
  mcpAvailRust : Except PyErr Unit
  initGo : Except PyErr ProbeOutcome
  initRust : Except PyErr ProbeOutcome
  toolsGo : Except PyErr ProbeOutcome
  toolsRust : Except PyErr ProbeOutcome
  resGo : Except PyErr ProbeOutcome
  resRust : Except PyErr ProbeOutcome
  echoGo : Except PyErr ProbeOutcome
  echoRust : Except PyErr ProbeOutcome
  corsGo : Except PyErr CorsHeaders
  corsRust : Except PyErr CorsHeaders

/-- `ConformanceTest.test_endpoint`: issue the request against the Go
service, then against the Rust service, and return the two parsed
bodies.  There is no handler in this method: a timeout, connection
failure or body-parse failure raises out of it (the Go request is
issued first, so its exception preempts the Rust request).  The
expected-status comparison only prints `FAIL` lines; it changes
neither the returned data nor the tally. -/
def test_endpoint (go rust : Except PyErr ProbeOutcome) :
    Except PyErr (PyVal × PyVal) := do
  let g ← go
  let r ← rust
  Except.ok (g.body, r.body)

/-- `ConformanceTest.test_basic_http`: compare the `/health` bodies —
with no handler, so an exception there propagates — then probe
`/nonexistent` inside `try:`/bare `except:`, counting one pass if
nothing raised and one fail otherwise. -/
def test_basic_http (e : Env) (s : Results) : Except PyErr Results := do
  let hr ← test_endpoint e.healthGo e.healthRust
  let s1 := (compare_responses "Health Check" hr.1 hr.2 s).2
  match test_endpoint e.nfGo e.nfRust with
  | Except.ok _ => Except.ok { s1 with passed := s1.passed + 1 }
  | Except.error _ => Except.ok { s1 with failed := s1.failed + 1 }

/-- The body of the masking loop in `test_mcp_protocol`: for one
response, if `"serverInfo" in resp["result"]`, overwrite
`resp["result"]["serverInfo"]["version"]` with `"X.X.X"` (each Python
subscript or membership test raising on values of the wrong shape
exactly as the operations above do). -/
def maskResp (resp : PyVal) : Except PyErr PyVal := do
  let res ← pyIndexE resp "result"
  let has ← pyInE "serverInfo" res
  if has then do
    let si ← pyIndexE res "serverInfo"
    let si2 ← pySetE si "version" (PyVal.str "X.X.X")
    let res2 ← pySetE res "serverInfo" si2
    pySetE resp "result" res2
  else
    Except.ok resp

/-- The masking step of the initialize comparison: only when both
responses contain a `result` key (short-circuit `and`, Go side first)
are the two responses masked, Go first. -/
def maskInit (g r : PyVal) : Except PyErr (PyVal × PyVal) := do
  let hg ← pyInE "result" g
  if hg then do
    let hr ← pyInE "result" r
    if hr then do
      let g2 ← maskResp g
      let r2 ← maskResp r
      Except.ok (g2, r2)
    else Except.ok (g, r)
  else Except.ok (g, r)

/-- The echo-tool gate of `test_mcp_protocol`:
`go_resp.get("result", {}).get("tools") and rust_resp.get(...)». Note
that at this point the `go_resp`/`rust_resp` variables hold the
*resources/list* responses (they were reassigned), so this is where
the gate reads its data from.  Short-circuit: a falsy Go side skips
the Rust side entirely. -/
def echoGate (g r : PyVal) : Except PyErr Bool := do
  let a ← dictGetE g "result" (PyVal.dict [])
  let ta ← dictGetE a "tools" PyVal.null
  if pyTruthy ta then do
    let b ← dictGetE r "result" (PyVal.dict [])
    let tb ← dictGetE b "tools" PyVal.null
    Except.ok (pyTruthy tb)
  else Except.ok false

/-- Whether an embedded Python step returned rather than raised. -/
def isOkB {α : Type} : Except PyErr α → Bool
  | Except.ok _ => true
  | Except.error _ => false

/-- The availability probe of `test_mcp_protocol`: both bare POSTs to
`/mcp` sit in one `try:` with a bare `except:`, so the skip branch is
taken exactly when either raised (Go probed first; the outcome is the
same either way). -/
def mcpAvailable (e : Env) : Bool :=
  isOkB e.mcpAvailGo && isOkB e.mcpAvailRust

/-- `ConformanceTest.test_mcp_protocol`: if the availability probe
failed, count five skips and return.  Otherwise run the initialize,
tools/list and resources/list comparisons (each probe unguarded, so
its exceptions propagate), then — only if the echo gate on the
resources/list responses is truthy for both services — run the echo
comparison.  When the gate is falsy nothing further happens: no
counter is touched for the echo case. -/
def test_mcp_protocol (e : Env) (s : Results) : Except PyErr Results :=
  if mcpAvailable e then do
    let p1 ← test_endpoint e.initGo e.initRust
    let m ← maskInit p1.1 p1.2
    let s1 := (compare_responses "MCP Initialize" m.1 m.2 s).2
    let p2 ← test_endpoint e.toolsGo e.toolsRust
    let s2 := (compare_responses "MCP List Tools" p2.1 p2.2 s1).2
    let p3 ← test_endpoint e.resGo e.resRust
    let s3 := (compare_responses "MCP List Resources" p3.1 p3.2 s2).2
    let gate ← echoGate p3.1 p3.2
    if gate then do
      let p4 ← test_endpoint e.echoGo e.echoRust
      Except.ok (compare_responses "MCP Echo Tool" p4.1 p4.2 s3).2
    else
      Except.ok s3
  else
    Except.ok { s with skipped := s.skipped + 5 }

/-- `ConformanceTest.test_middleware`: two unguarded
`requests.options` calls (Go first), then exact string comparison of
the two watched CORS headers; one pass if both match, one fail
otherwise. -/
def test_middleware (e : Env) (s : Results) : Except PyErr Results := do
  let g ← e.corsGo
  let r ← e.corsRust
  if g.allowOrigin == r.allowOrigin && g.allowMethods == r.allowMethods then
    Except.ok { s with passed := s.passed + 1 }
  else
    Except.ok { s with failed := s.failed + 1 }

/-- `ConformanceTest.run_all_tests`: run the three test groups in
order over the fresh tally from `__init__`, print the summary, and
return `True` exactly when nothing failed.  An exception escaping a
test group escapes `run_all_tests` too — there is no handler. -/
def run_all_tests (e : Env) : Except PyErr (Results × Bool) := do
  let s1 ← test_basic_http e initResults
  let s2 ← test_mcp_protocol e s1
  let s3 ← test_middleware e s2
  Except.ok (s3, s3.failed == 0)

theorem pyEqList_refl (xs : List PyVal)
    (ih : ∀ x ∈ xs, pyEq x x = true) : pyEqList xs xs = true := by
  induction xs with
  | nil => simp [pyEqList]
  | cons x xs2 ihl =>
      rw [pyEqList, ih x (List.mem_cons_self x xs2),
        ihl fun a ha => ih a (List.mem_cons_of_mem x ha)]
      rfl

theorem pyEq_refl (v : PyVal) (h : wfVal v = true) : pyEq v v = true := by
  cases v with
  | str s => simp [pyEq]
  | int n => simp [pyEq]
  | bool b => simp [pyEq]
  | null => simp [pyEq]
  | list xs =>
      rw [wfVal, wfList_eq_all, List.all_eq_true] at h
      rw [pyEq]
      exact pyEqList_refl xs fun x hx => pyEq_refl x (h x hx)
  | dict kvs =>
      rw [wfVal, Bool.and_eq_true, decide_eq_true_eq] at h
      rw [pyEq, pyEqPairs_eq_all]
      simp only [beq_self_eq_true, Bool.true_and]
      rw [List.all_eq_true]
      intro p hp
      rcases p with ⟨k, w⟩
      rw [pairCheck]
      have : lookupKey kvs k = some w := lookupKey_eq_some_of_mem h.1 hp
      rw [this]
      have hw : wfVal w = true := by
        rw [wfPairs_eq_all, List.all_eq_true] at *
        exact h.2 (k, w) hp
      exact pyEq_refl w hw
termination_by sizeOf v
decreasing_by
  all_goals simp_wf
  all_goals simp only [*, PyVal.list.sizeOf_spec, PyVal.dict.sizeOf_spec]
  · have := List.sizeOf_lt_of_mem hx
    omega
  · have h1 := List.sizeOf_lt_of_mem hp
    have h2 : sizeOf w < sizeOf (k, w) := by simp
    omega

/-- Comparing a well-formed response against itself is a pass. -/
theorem compare_responses_self (n : String) (v : PyVal) (s : Results)
    (h : wfVal v = true) :
    compare_responses n v v s = (true, { s with passed := s.passed + 1 }) := by
  rw [compare_responses, if_pos]
  rw [pyEq_normalize v v h h]
  exact pyEq_refl v h

theorem compare_responses_counts (n : String) (a b : PyVal) (s : Results) :
    (compare_responses n a b s).2.passed + (compare_responses n a b s).2.failed
        = s.passed + s.failed + 1 ∧
    (compare_responses n a b s).2.skipped = s.skipped := by
  rw [compare_responses]
  split
  · simp
    omega
  · simp
    omega

theorem bind_ok_PyErr {α β : Type} (a : α) (f : α → Except PyErr β) :
    ((Except.ok a : Except PyErr α) >>= f) = f a := rfl

theorem bind_error_PyErr {α β : Type} (er : PyErr) (f : α → Except PyErr β) :
    ((Except.error er : Except PyErr α) >>= f) = Except.error er := rfl

theorem test_basic_http_counts (e : Env) (s s2 : Results)
    (h : test_basic_http e s = Except.ok s2) :
    s2.passed + s2.failed = s.passed + s.failed + 2 ∧
    s2.skipped = s.skipped := by
  unfold test_basic_http at h
  cases hhr : test_endpoint e.healthGo e.healthRust with
  | error err => rw [hhr] at h; cases h
  | ok hr =>
      rw [hhr] at h
      rw [bind_ok_PyErr] at h
      have hc := compare_responses_counts "Health Check" hr.1 hr.2 s
      cases hnf : test_endpoint e.nfGo e.nfRust with
      | ok u =>
          rw [hnf] at h
          cases h
          constructor
          · simp
            omega
          · exact hc.2
      | error err =>
          rw [hnf] at h
          cases h
          constructor
          · simp
            omega
          · exact hc.2

theorem test_middleware_counts (e : Env) (s s2 : Results)
    (h : test_middleware e s = Except.ok s2) :
    s2.passed + s2.failed = s.passed + s.failed + 1 ∧
    s2.skipped = s.skipped := by
  unfold test_middleware at h
  cases hg : e.corsGo with
  | error err => rw [hg] at h; cases h
  | ok g =>
      rw [hg] at h
      cases hr : e.corsRust with
      | error err => rw [hr] at h; cases h
      | ok r =>
          rw [hr] at h
          rw [bind_ok_PyErr, bind_ok_PyErr] at h
          split at h
          · cases h
            refine ⟨?_, rfl⟩
            simp
            omega
          · cases h
            refine ⟨?_, rfl⟩
            simp
            omega

/-- The echo gate as a function of the run environment: the value the
suite's gate takes when the run reaches it (`false` when the
resources/list probe or the gate expression itself raises, in which
case the run aborts before the gate is used). -/
def echoGateB (e : Env) : Bool :=
  match test_endpoint e.resGo e.resRust with
  | Except.ok p =>
      match echoGate p.1 p.2 with
      | Except.ok b => b
      | Except.error _ => false
  | Except.error _ => false

theorem test_mcp_protocol_skip (e : Env) (s : Results)
    (h : mcpAvailable e = false) :
    test_mcp_protocol e s = Except.ok { s with skipped := s.skipped + 5 } := by
  unfold test_mcp_protocol
  rw [h]
  rfl

theorem test_mcp_protocol_counts (e : Env) (s s2 : Results)
    (havail : mcpAvailable e = true)
    (h : test_mcp_protocol e s = Except.ok s2) :
    s2.skipped = s.skipped ∧
    s2.passed + s2.failed
      = s.passed + s.failed + (if echoGateB e then 4 else 3) := by
  unfold test_mcp_protocol at h
  rw [havail] at h
  simp only [if_true] at h
  cases h1 : test_endpoint e.initGo e.initRust with
  | error err =>
      rw [h1] at h
      simp only [bind_error_PyErr] at h
      cases h
  | ok p1 =>
  rw [h1] at h
  simp only [bind_ok_PyErr] at h
  cases hm : maskInit p1.1 p1.2 with
  | error err =>
      rw [hm] at h
      simp only [bind_error_PyErr] at h
      cases h
  | ok m =>
  rw [hm] at h
  simp only [bind_ok_PyErr] at h
  have hc1 := compare_responses_counts "MCP Initialize" m.1 m.2 s
  cases h2 : test_endpoint e.toolsGo e.toolsRust with
  | error err =>
      rw [h2] at h
      simp only [bind_error_PyErr] at h
      cases h
  | ok p2 =>
  rw [h2] at h
  simp only [bind_ok_PyErr] at h
  have hc2 := compare_responses_counts "MCP List Tools" p2.1 p2.2
    (compare_responses "MCP Initialize" m.1 m.2 s).2
  cases h3 : test_endpoint e.resGo e.resRust with
  | error err =>
      rw [h3] at h
      simp only [bind_error_PyErr] at h
      cases h
  | ok p3 =>
  rw [h3] at h
  simp only [bind_ok_PyErr] at h
  have hc3 := compare_responses_counts "MCP List Resources" p3.1 p3.2
    (compare_responses "MCP List Tools" p2.1 p2.2
      (compare_responses "MCP Initialize" m.1 m.2 s).2).2
  cases hg : echoGate p3.1 p3.2 with
  | error err =>
      rw [hg] at h
      simp only [bind_error_PyErr] at h
      cases h
  | ok gate =>
  rw [hg] at h
  simp only [bind_ok_PyErr] at h
  have hgb : echoGateB e = gate := by
    simp only [echoGateB, h3, hg]
  cases gate with
  | true =>
      rw [if_pos rfl] at h
      cases h4 : test_endpoint e.echoGo e.echoRust with
      | error err =>
          rw [h4] at h
          simp only [bind_error_PyErr] at h
          cases h
      | ok p4 =>
          rw [h4] at h
          simp only [bind_ok_PyErr] at h
          cases h
          have hc4 := compare_responses_counts "MCP Echo Tool" p4.1 p4.2
            (compare_responses "MCP List Resources" p3.1 p3.2
              (compare_responses "MCP List Tools" p2.1 p2.2
                (compare_responses "MCP Initialize" m.1 m.2 s).2).2).2
          rw [hgb]
          constructor
          · rw [hc4.2, hc3.2, hc2.2, hc1.2]
          · simp only [if_true]
            omega
  | false =>
      rw [if_neg (by simp)] at h
      cases h
      rw [hgb]
      constructor
      · rw [hc3.2, hc2.2, hc1.2]
      · rw [if_neg (by simp)]
        omega

/-- What one completed run tallies, as a function of the probe
outcomes: the returned flag mirrors `failed == 0`; the skip counter is
5 exactly when the MCP availability probe failed and 0 otherwise; and
the scored (pass/fail) cases number 3 outside the protocol group plus
3 or 4 protocol cases — 4 only when the echo gate was truthy. -/
theorem run_all_tests_spec (e : Env) (r : Results) (b : Bool)
    (h : run_all_tests e = Except.ok (r, b)) :
    b = (r.failed == 0) ∧
    r.skipped = (if mcpAvailable e then 0 else 5) ∧
    r.passed + r.failed =
      (if mcpAvailable e then (if echoGateB e then 4 else 3) else 0) + 3 := by
  unfold run_all_tests at h
  cases hs1 : test_basic_http e initResults with
  | error err =>
      rw [hs1] at h
      simp only [bind_error_PyErr] at h
      cases h
  | ok s1 =>
  rw [hs1] at h
  simp only [bind_ok_PyErr] at h
  have hb := test_basic_http_counts e initResults s1 hs1
  have hb1 : s1.passed + s1.failed = 2 := hb.1
  have hb2 : s1.skipped = 0 := hb.2
  cases hs2 : test_mcp_protocol e s1 with
  | error err =>
      rw [hs2] at h
      simp only [bind_error_PyErr] at h
      cases h
  | ok s2 =>
  rw [hs2] at h
  simp only [bind_ok_PyErr] at h
  cases hs3 : test_middleware e s2 with
  | error err =>
      rw [hs3] at h
      simp only [bind_error_PyErr] at h
      cases h
  | ok s3 =>
  rw [hs3] at h
  simp only [bind_ok_PyErr] at h
  rw [Except.ok.injEq, Prod.mk.injEq] at h
  obtain ⟨hr, hbf⟩ := h
  subst hr
  subst hbf
  have hw := test_middleware_counts e s2 s3 hs3
  refine ⟨rfl, ?_⟩
  by_cases havail : mcpAvailable e = true
  · have hm := test_mcp_protocol_counts e s1 s2 havail hs2
    rw [havail]
    simp only [if_true]
    constructor
    · rw [hw.2, hm.1, hb2]
    · by_cases hgate : echoGateB e = true
      · rw [hgate] at hm ⊢
        simp only [if_true] at hm ⊢
        omega
      · rw [Bool.not_eq_true] at hgate
        rw [hgate] at hm ⊢
        rw [if_neg (by simp)] at hm ⊢
        omega
  · rw [Bool.not_eq_true] at havail
    rw [test_mcp_protocol_skip e s1 havail] at hs2
    cases hs2
    have hw1 : s3.passed + s3.failed = s1.passed + s1.failed + 1 := hw.1
    have hw2 : s3.skipped = s1.skipped + 5 := hw.2
    rw [havail]
    rw [if_neg (by simp), if_neg (by simp)]
    constructor
    · omega
    · omega

theorem wf_emptyDict : wfVal (PyVal.dict []) = true := by
  simp [wfVal, wfPairs]

theorem compare_responses_emptyDict (n : String) (s : Results) :
    compare_responses n (PyVal.dict []) (PyVal.dict []) s
      = (true, { s with passed := s.passed + 1 }) :=
  compare_responses_self n (PyVal.dict []) s wf_emptyDict

/-- A healthy probe outcome: HTTP 200, empty JSON object body. -/
def okEmpty : Except PyErr ProbeOutcome :=
  Except.ok ⟨200, PyVal.dict []⟩

/-- A run in which both services answer every request with an empty
JSON object, the MCP availability probes succeed, and the CORS
headers agree: every comparison passes, and neither service
advertises any tool. -/
def envBase : Env where
  healthGo := okEmpty
  healthRust := okEmpty
  nfGo := Except.ok ⟨404, PyVal.dict []⟩
  nfRust := Except.ok ⟨404, PyVal.dict []⟩
  mcpAvailGo := Except.ok ()
  mcpAvailRust := Except.ok ()
  initGo := okEmpty
  initRust := okEmpty
  toolsGo := okEmpty
  toolsRust := okEmpty
  resGo := okEmpty
  resRust := okEmpty
  echoGo := okEmpty
  echoRust := okEmpty
  corsGo := Except.ok ⟨some "*", some "GET, POST, OPTIONS"⟩
  corsRust := Except.ok ⟨some "*", some "GET, POST, OPTIONS"⟩

/-- A resources/list response that happens to carry a truthy `tools`
field under `result` — the shape the echo gate actually looks for. -/
def toolsBody : PyVal :=
  PyVal.dict [(PyKey.str "result",
    PyVal.dict [(PyKey.str "tools",
      PyVal.list [PyVal.dict [(PyKey.str "name", PyVal.str "echo")]])])]

/-- `envBase`, but the resources/list responses carry the truthy
`tools` field, so the echo gate opens and the echo case runs. -/
def envWithEcho : Env :=
  { envBase with
    resGo := Except.ok ⟨200, toolsBody⟩
    resRust := Except.ok ⟨200, toolsBody⟩ }

/-- `envBase`, but the MCP endpoint is unreachable on both services:
the availability probe raises. -/
def envMcpDown : Env :=
  { envBase with
    mcpAvailGo := Except.error PyErr.net
    mcpAvailRust := Except.error PyErr.net }

/-- `envBase`, but the Go health request times out. -/
def envHealthDown : Env :=
  { envBase with healthGo := Except.error PyErr.net }

/-- `envBase`, but the 404 probe raises (connection failure). -/
def envNfDown : Env :=
  { envBase with nfGo := Except.error PyErr.net }

theorem run_envBase :
    run_all_tests envBase = Except.ok (⟨6, 0, 0, []⟩, true) := by
  rw [run_all_tests]
  rw [show test_basic_http envBase initResults = Except.ok ⟨2, 0, 0, []⟩ by
    rw [test_basic_http]
    simp only [envBase, okEmpty, test_endpoint, bind_ok_PyErr,
      compare_responses_emptyDict, initResults]]
  rw [bind_ok_PyErr]
  rw [show test_mcp_protocol envBase ⟨2, 0, 0, []⟩ = Except.ok ⟨5, 0, 0, []⟩ by
    rw [test_mcp_protocol]
    rw [if_pos (by rw [mcpAvailable]; rfl)]
    simp only [envBase, okEmpty, test_endpoint, bind_ok_PyErr]
    rw [show maskInit (PyVal.dict []) (PyVal.dict [])
        = Except.ok (PyVal.dict [], PyVal.dict []) by
      rw [maskInit]
      simp [pyInE, bind_ok_PyErr]]
    simp only [bind_ok_PyErr, compare_responses_emptyDict]
    rw [show echoGate (PyVal.dict []) (PyVal.dict []) = Except.ok false by
      rw [echoGate]
      simp [dictGetE, lookupKey, pyTruthy, bind_ok_PyErr]]
    simp only [bind_ok_PyErr]
    rw [if_neg (by simp)]]
  rw [bind_ok_PyErr]
  rw [show test_middleware envBase ⟨5, 0, 0, []⟩ = Except.ok ⟨6, 0, 0, []⟩ by
    rw [test_middleware]
    simp only [envBase, bind_ok_PyErr]
    rw [if_pos (by rfl)]]
  rw [bind_ok_PyErr]
  rfl

theorem wf_toolsBody : wfVal toolsBody = true := by
  rw [toolsBody]
  simp +decide [wfVal, wfPairs, wfList]

theorem compare_responses_toolsBody (n : String) (s : Results) :
    compare_responses n toolsBody toolsBody s
      = (true, { s with passed := s.passed + 1 }) :=
  compare_responses_self n toolsBody s wf_toolsBody

theorem run_envMcpDown :
    run_all_tests envMcpDown = Except.ok (⟨3, 0, 5, []⟩, true) := by
  rw [run_all_tests]
  rw [show test_basic_http envMcpDown initResults = Except.ok ⟨2, 0, 0, []⟩ by
    rw [test_basic_http]
    simp only [envMcpDown, envBase, okEmpty, test_endpoint, bind_ok_PyErr,
      compare_responses_emptyDict, initResults]]
  rw [bind_ok_PyErr]
  rw [test_mcp_protocol_skip envMcpDown ⟨2, 0, 0, []⟩ (by rfl)]
  rw [bind_ok_PyErr]
  rw [show test_middleware envMcpDown ⟨2, 0, 5, []⟩ = Except.ok ⟨3, 0, 5, []⟩ by
    rw [test_middleware]
    simp only [envMcpDown, envBase, bind_ok_PyErr]
    rw [if_pos (by rfl)]]
  rw [bind_ok_PyErr]
  rfl

theorem run_envWithEcho :
    run_all_tests envWithEcho = Except.ok (⟨7, 0, 0, []⟩, true) := by
  rw [run_all_tests]
  rw [show test_basic_http envWithEcho initResults = Except.ok ⟨2, 0, 0, []⟩ by
    rw [test_basic_http]
    simp only [envWithEcho, envBase, okEmpty, test_endpoint, bind_ok_PyErr,
      compare_responses_emptyDict, initResults]]
  rw [bind_ok_PyErr]
  rw [show test_mcp_protocol envWithEcho ⟨2, 0, 0, []⟩
      = Except.ok ⟨6, 0, 0, []⟩ by
    rw [test_mcp_protocol]
    rw [if_pos (by rw [mcpAvailable]; rfl)]
    simp only [envWithEcho, envBase, okEmpty, test_endpoint, bind_ok_PyErr]
    rw [show maskInit (PyVal.dict []) (PyVal.dict [])
        = Except.ok (PyVal.dict [], PyVal.dict []) by
      rw [maskInit]
      simp [pyInE, bind_ok_PyErr]]
    simp only [bind_ok_PyErr, compare_responses_emptyDict,
      compare_responses_toolsBody]
    rw [show echoGate toolsBody toolsBody = Except.ok true by
      rw [echoGate]
      simp +decide [dictGetE, lookupKey, pyTruthy, toolsBody, bind_ok_PyErr]]
    simp [envWithEcho, envBase, okEmpty, test_endpoint, bind_ok_PyErr,
      compare_responses_emptyDict]]
  rw [bind_ok_PyErr]
  rw [show test_middleware envWithEcho ⟨6, 0, 0, []⟩ = Except.ok ⟨7, 0, 0, []⟩ by
    rw [test_middleware]
    simp only [envWithEcho, envBase, bind_ok_PyErr]
    rw [if_pos (by rfl)]]
  rw [bind_ok_PyErr]
  rfl

theorem run_envHealthDown :
    run_all_tests envHealthDown = Except.error PyErr.net := rfl

theorem mcpAvailable_envBase : mcpAvailable envBase = true := rfl

theorem echoGateB_envBase : echoGateB envBase = false := rfl

/-- C3, counterexample.  There is no fixed number of registered test
cases that the tally always sums to: a run with the MCP endpoint down
tallies 3 + 0 + 5 = 8, while a run with MCP up and no tool advertised
tallies 6 + 0 + 0 = 6 — the echo case is silently dropped (not
skipped) and the skip branch adds 5 for a group of at most 4 scored
cases. -/
theorem C3_counterexample :
    ¬ ∃ N : Nat, ∀ (e : Env) (r : Results) (b : Bool),
      run_all_tests e = Except.ok (r, b) →
      r.passed + r.failed + r.skipped = N := by
  rintro ⟨N, hN⟩
  have h1 := hN envMcpDown ⟨3, 0, 5, []⟩ true run_envMcpDown
  have h2 := hN envBase ⟨6, 0, 0, []⟩ true run_envBase
  simp at h1 h2
  omega

/-- C3, amended.  Every completed `run_all_tests` tallies
`passed + failed + skipped` equal to the number of cases the run
accounted for, which is not a run-independent constant: 8 when the
MCP availability probe failed (3 scored cases plus a flat 5 skips),
7 when MCP is up and the echo gate is truthy, and 6 when MCP is up
but the gate is falsy (the echo case then touches no counter at
all). -/
theorem C3_tally_sum (e : Env) (r : Results) (b : Bool)
    (h : run_all_tests e = Except.ok (r, b)) :
    r.passed + r.failed + r.skipped =
      if mcpAvailable e then (if echoGateB e then 7 else 6) else 8 := by
  have hs := run_all_tests_spec e r b h
  by_cases havail : mcpAvailable e = true
  · rw [havail] at hs ⊢
    simp only [if_true] at hs ⊢
    by_cases hgate : echoGateB e = true
    · rw [hgate] at hs ⊢
      simp only [if_true] at hs ⊢
      omega
    · rw [Bool.not_eq_true] at hgate
      rw [hgate] at hs ⊢
      simp only [Bool.false_eq_true, if_false] at hs ⊢
      omega
  · rw [Bool.not_eq_true] at havail
    rw [havail] at hs ⊢
    simp only [Bool.false_eq_true, if_false] at hs ⊢
    omega

/-- C3, witness: the amended sum theorem applied to the concrete
all-healthy no-tools run, whose tally is 6 + 0 + 0. -/
theorem C3_tally_sum_witness :
    (6 : Nat) + 0 + 0 =
      if mcpAvailable envBase then (if echoGateB envBase then 7 else 6)
      else 8 :=
  C3_tally_sum envBase ⟨6, 0, 0, []⟩ true run_envBase

/-- C4, counterexample.  A connection failure inside `test_endpoint`
is not converted into a sentinel result: the health probe's exception
propagates out of `test_endpoint`, out of `test_basic_http`, and out
of `run_all_tests`, aborting the suite with no tally. -/
theorem C4_counterexample :
    run_all_tests envHealthDown = Except.error PyErr.net := rfl

/-- C4, amended.  `test_endpoint` has no exception handler: a timeout
or connection failure propagates to its caller.  Only the not-found
test case wraps its `test_endpoint` call in a handler and scores the
failure; the health case (like the protocol and middleware cases)
lets the exception abort the whole suite. -/
theorem C4_error_propagation (e : Env) (er : PyErr) (g r : ProbeOutcome)
    (s : Results) :
    (e.healthGo = Except.error er → run_all_tests e = Except.error er) ∧
    (e.healthGo = Except.ok g → e.healthRust = Except.ok r →
      e.nfGo = Except.error er →
      test_basic_http e s = Except.ok
        { (compare_responses "Health Check" g.body r.body s).2 with
          failed :=
            (compare_responses "Health Check" g.body r.body s).2.failed
              + 1 }) := by
  constructor
  · intro hh
    rw [run_all_tests, test_basic_http, test_endpoint, hh]
    rfl
  · intro hg hr hn
    rw [test_basic_http, test_endpoint, hg, hr, hn]
    rfl

/-- C4, witness: the propagation branch applied to the run with the
health probe down, and the handler branch applied to the run with the
not-found probe down. -/
theorem C4_error_propagation_witness :
    run_all_tests envHealthDown = Except.error PyErr.net ∧
    test_basic_http envNfDown initResults = Except.ok
      { (compare_responses "Health Check" (PyVal.dict []) (PyVal.dict [])
          initResults).2 with
        failed :=
          (compare_responses "Health Check" (PyVal.dict []) (PyVal.dict [])
            initResults).2.failed + 1 } := by
  constructor
  · exact (C4_error_propagation envHealthDown PyErr.net ⟨200, PyVal.dict []⟩
      ⟨200, PyVal.dict []⟩ initResults).1 rfl
  · exact (C4_error_propagation envNfDown PyErr.net ⟨200, PyVal.dict []⟩
      ⟨200, PyVal.dict []⟩ initResults).2 rfl rfl rfl

/-- C5, counterexample.  When neither service advertises a tool, the
echo gate is falsy and the run completes with `skipped = 0`: the
invocation case is not recorded as Skipped — no counter is touched
for it at all. -/
theorem C5_counterexample :
    echoGateB envBase = false ∧
    run_all_tests envBase = Except.ok (⟨6, 0, 0, []⟩, true) :=
  ⟨rfl, run_envBase⟩

/-- C5, amended.  When MCP is available but the echo gate is falsy
(the gate reads the resources/list responses, and either side lacks a
truthy `tools` field), the invocation case is neither executed nor
counted: the skip counter stays 0, exactly 6 cases are scored, and
the run still reports success exactly when nothing failed. -/
theorem C5_no_skip_for_missing_tool (e : Env) (r : Results) (b : Bool)
    (havail : mcpAvailable e = true) (hgate : echoGateB e = false)
    (h : run_all_tests e = Except.ok (r, b)) :
    r.skipped = 0 ∧ r.passed + r.failed = 6 ∧ (b = true ↔ r.failed = 0) := by
  have hs := run_all_tests_spec e r b h
  rw [havail, hgate] at hs
  simp only [if_true, Bool.false_eq_true, if_false] at hs
  refine ⟨hs.2.1, by omega, ?_⟩
  rw [hs.1]
  simp

/-- C5, witness: the amended theorem applied to the all-healthy
no-tools run. -/
theorem C5_no_skip_witness :
    (0 : Nat) = 0 ∧ (6 : Nat) + 0 = 6 ∧ (true = true ↔ (0 : Nat) = 0) :=
  C5_no_skip_for_missing_tool envBase ⟨6, 0, 0, []⟩ true rfl rfl run_envBase

/-- C6.  When the MCP availability probe fails, the whole protocol
group is skipped and none of its sub-cases is recorded as Failed —
but the code adds a flat 5 to the skip counter, while the protocol
exchange group has only 4 sub-cases (initialize, tools/list,
resources/list, and the conditional echo invocation), so the claim
that the skipped count added equals the number of sub-cases fails on
this run. -/
theorem C6_unavailable_group_adds_five :
    run_all_tests envMcpDown = Except.ok (⟨3, 0, 5, []⟩, true) :=
  run_envMcpDown

/-- The state of a supervised server process as `ServerManager.stop`
can find it: never started (`self.process is None`), already exited,
still running and exiting within the 5-second wait after `SIGTERM`,
or still running and not exiting within that wait. -/
inductive ProcStatus where
  | alreadyExited
  | respondsToTerm
  | ignoresTerm
  deriving DecidableEq, Repr

/-- `ServerManager.stop`: if a process was started, send `SIGTERM`
(`Popen.terminate`, a no-op delivery for an already-exited child) and
then `Popen.wait(timeout=5)`.  `wait` returns normally once the
process has exited — immediately for an already-exited child — but
raises `subprocess.TimeoutExpired` if the process is still alive when
the 5-second timeout elapses; `stop` has no handler, so that
exception propagates.  A never-started manager (`self.process` is
`None`) is a no-op. -/
def ServerManager.stop (process : Option ProcStatus) : Except PyErr Unit :=
  match process with
  | none => Except.ok ()
  | some ProcStatus.alreadyExited => Except.ok ()
  | some ProcStatus.respondsToTerm => Except.ok ()
  | some ProcStatus.ignoresTerm => Except.error PyErr.timeoutExpired

/-- C8, counterexample.  `stop` can raise after `start` has returned:
a process that ignores `SIGTERM` for longer than the 5-second wait
makes `Popen.wait(timeout=5)` raise `TimeoutExpired`, which
propagates out of `stop`. -/
theorem C8_counterexample :
    ServerManager.stop (some ProcStatus.ignoresTerm)
      = Except.error PyErr.timeoutExpired := rfl

/-- C8, amended.  `stop` treats a never-started or already-exited
process as a no-op success and returns normally when the process
exits within the 5-second wait after `SIGTERM`; but when the process
is still running at the end of that wait, `stop` raises
`TimeoutExpired` rather than returning. -/
theorem C8_stop_raises_only_on_timeout (p : Option ProcStatus) :
    ServerManager.stop p = Except.ok () ↔
      p ≠ some ProcStatus.ignoresTerm := by
  cases p with
  | none => simp [ServerManager.stop]
  | some st => cases st <;> simp [ServerManager.stop]

/-- C8, witness: the amended theorem applied to a process that exits
promptly on `SIGTERM`. -/
theorem C8_stop_witness :
    ServerManager.stop (some ProcStatus.respondsToTerm) = Except.ok () :=
  (C8_stop_raises_only_on_timeout (some ProcStatus.respondsToTerm)).mpr
    (by simp)

/-- The run mode selected by the positional CLI argument. -/
inductive Mode where
  | go
  | rust
  | both
  deriving DecidableEq, Repr

/-- The environment `main` runs in: whether each supervised server
reaches readiness within its polling ceiling, and the suite's network
environment for `both` mode. -/
structure MainEnv where
  goStarts : Bool
  rustStarts : Bool
  suite : Env

/-- The observable outcome of one `main` invocation: the process exit
code, and whether any test request beyond `start`'s readiness polling
was issued (the conformance suite running at all). -/
structure RunOutcome where
  exitCode : Nat
  suiteRan : Bool
  deriving DecidableEq, Repr

/-- `main`: in `go` or `rust` mode, start the one server and exit 1
if it fails to become ready; otherwise only an informational line is
printed — no test or smoke request is issued — and the unchanged
`success = True` maps to exit 0.  In `both` mode, start both servers
(short-circuit: the Rust server is not started when the Go one
fails), abort with exit 1 if either fails, and otherwise run the
suite: a clean run maps `failed == 0` to exit 0, and an exception
escaping the suite terminates the interpreter with a nonzero exit.
Teardown (`stop` on both managers) runs on every path and is modelled
separately by `ServerManager.stop`. -/
def conformance_test.main (mode : Mode) (me : MainEnv) : RunOutcome :=
  match mode with
  | Mode.go => if me.goStarts then ⟨0, false⟩ else ⟨1, false⟩
  | Mode.rust => if me.rustStarts then ⟨0, false⟩ else ⟨1, false⟩
  | Mode.both =>
      if me.goStarts && me.rustStarts then
        match run_all_tests me.suite with
        | Except.ok (_, ok) => ⟨if ok then 0 else 1, true⟩
        | Except.error _ => ⟨1, true⟩
      else ⟨1, false⟩

/-- C9, counterexample.  In single-implementation mode the harness
performs no transport-level smoke check after the service reaches
Ready: with a healthy Go server, `main go` issues no suite request at
all (`suiteRan = false`) and still exits 0. -/
theorem C9_counterexample :
    conformance_test.main Mode.go ⟨true, true, envBase⟩ = ⟨0, false⟩ := rfl

/-- C9, amended.  In `A-only`/`B-only` mode, once the supervised
service reaches Ready (readiness itself being established by the
health polling inside `start`), the harness runs no further check —
no smoke request, no comparison — and maps directly to exit 0; a
service that fails to become ready maps to exit 1. -/
theorem C9_single_mode_runs_nothing (me : MainEnv) :
    (me.goStarts = true → conformance_test.main Mode.go me = ⟨0, false⟩) ∧
    (me.rustStarts = true → conformance_test.main Mode.rust me = ⟨0, false⟩) ∧
    (me.goStarts = false → conformance_test.main Mode.go me = ⟨1, false⟩) := by
  refine ⟨?_, ?_, ?_⟩ <;> intro h <;> simp [conformance_test.main, h]

/-- C9, witness: the amended theorem applied to a healthy Go-only run
and to a Go-only run whose server never becomes ready. -/
theorem C9_single_mode_witness :
    conformance_test.main Mode.go ⟨true, true, envBase⟩ = ⟨0, false⟩ ∧
    conformance_test.main Mode.go ⟨false, true, envBase⟩ = ⟨1, false⟩ :=
  ⟨(C9_single_mode_runs_nothing ⟨true, true, envBase⟩).1 rfl,
   (C9_single_mode_runs_nothing ⟨false, true, envBase⟩).2.2 rfl⟩
